import Mathlib

/-!
Verification of the 3D Voronoi tessellation core (`src/voronoi3d.js`).

Embedding conventions:
* JavaScript numbers are modelled as exact rationals (`ℚ`).  Every input the
  concrete claims exercise only produces dyadic rationals, on which the
  JavaScript float arithmetic is itself exact, so the model agrees with the
  source there; universally quantified claims are read over the idealized
  exact arithmetic the specification describes.
* `Math.sqrt` is modelled by `ratSqrt`, the exact rational square root; it is
  only ever relevant on perfect rational squares (unit or axis-aligned
  normals), which are the only square roots the verified claims reach.
* JavaScript array indexing `a[i]` is modelled by `elemD a i d` (returning a
  default out of range, mirroring how `undefined` flows through the guarded
  comparisons of the source).
* The in-place mutation of `cutWithPlane` is modelled functionally: the
  method returns the polyhedron that the source leaves in `this`.
* `Map` objects (`edgeIntersections`, `vertexMap`) are modelled as
  association lists with first-match lookup; the source only ever inserts
  fresh keys, so insertion order semantics coincide.
-/

/-- Fixed numeric tolerance, `EPSILON = 1e-10` in the source. -/
def EPSILON : ℚ := 1 / 10000000000

/-- List indexing with a default, mirroring JavaScript `a[i]`. -/
def elemD {α : Type} (d : α) : List α → ℕ → α
  | [], _ => d
  | a :: _, 0 => a
  | _ :: t, i + 1 => elemD d t i

/-- First-match lookup in an association list, mirroring `Map.get`. -/
def alookup {α β : Type} [DecidableEq α] (k : α) : List (α × β) → Option β
  | [] => none
  | (k1, v) :: rest => if k1 = k then some v else alookup k rest

/-- Deduplication keeping first occurrences, mirroring `[...new Set(xs)]`. -/
def dedupFirst (l : List ℕ) : List ℕ :=
  l.foldl (fun acc a => if a ∈ acc then acc else acc ++ [a]) []

/-- A 3D vector (class `Vec3`), with rational coordinates. -/
structure Vec3 where
  x : ℚ
  y : ℚ
  z : ℚ
deriving DecidableEq, Repr

instance : Inhabited Vec3 := ⟨⟨0, 0, 0⟩⟩

def Vec3.add (a b : Vec3) : Vec3 := ⟨a.x + b.x, a.y + b.y, a.z + b.z⟩

def Vec3.sub (a b : Vec3) : Vec3 := ⟨a.x - b.x, a.y - b.y, a.z - b.z⟩

def Vec3.scale (a : Vec3) (s : ℚ) : Vec3 := ⟨a.x * s, a.y * s, a.z * s⟩

def Vec3.dot (a b : Vec3) : ℚ := a.x * b.x + a.y * b.y + a.z * b.z

def Vec3.cross (a b : Vec3) : Vec3 :=
  ⟨a.y * b.z - a.z * b.y, a.z * b.x - a.x * b.z, a.x * b.y - a.y * b.x⟩

/-- Exact rational square root: models `Math.sqrt` on the rational squares
    that the verified claims reach (the source never relies on an inexact
    square root in any claim's scope); on non-squares it returns a junk 0. -/
def ratSqrt (q : ℚ) : ℚ :=
  if q < 0 then 0
  else if Nat.sqrt q.num.toNat * Nat.sqrt q.num.toNat = q.num.toNat ∧
          Nat.sqrt q.den * Nat.sqrt q.den = q.den then
    (Nat.sqrt q.num.toNat : ℚ) / (Nat.sqrt q.den : ℚ)
  else 0

def Vec3.length (v : Vec3) : ℚ := ratSqrt (v.dot v)

/-- `normalize`: returns the zero vector when the length is below `EPSILON`. -/
def Vec3.normalize (v : Vec3) : Vec3 :=
  if v.length < EPSILON then ⟨0, 0, 0⟩ else v.scale (1 / v.length)

/-- A plane `normal ⬝ p + d = 0` (class `Plane`), stored as its raw fields. -/
structure Plane where
  normal : Vec3
  d : ℚ
deriving DecidableEq, Repr

/-- The `Plane` constructor (`new Plane(normal, d)` normalizes its normal). -/
def Plane.make (normal : Vec3) (d : ℚ) : Plane := ⟨normal.normalize, d⟩

def Plane.fromPointAndNormal (point normal : Vec3) : Plane :=
  let n := normal.normalize
  Plane.make n (-(n.dot point))

def Plane.perpendicularBisector (p1 p2 : Vec3) : Plane :=
  let midpoint : Vec3 := ⟨(p1.x + p2.x) / 2, (p1.y + p2.y) / 2, (p1.z + p2.z) / 2⟩
  let normal : Vec3 := ⟨p2.x - p1.x, p2.y - p1.y, p2.z - p1.z⟩
  Plane.fromPointAndNormal midpoint normal

def Plane.signedDistance (pl : Plane) (point : Vec3) : ℚ :=
  pl.normal.dot point + pl.d

/-- A convex polyhedron: vertex positions plus faces as vertex-index cycles. -/
structure ConvexPolyhedron where
  vertices : List Vec3
  faces : List (List ℕ)
deriving DecidableEq, Repr

/-- `ConvexPolyhedron.createBox`: the canonical 8-vertex, 6-face box. -/
def ConvexPolyhedron.createBox (minX minY minZ maxX maxY maxZ : ℚ) :
    ConvexPolyhedron where
  vertices :=
    [⟨minX, minY, minZ⟩, ⟨maxX, minY, minZ⟩, ⟨maxX, maxY, minZ⟩, ⟨minX, maxY, minZ⟩,
     ⟨minX, minY, maxZ⟩, ⟨maxX, minY, maxZ⟩, ⟨maxX, maxY, maxZ⟩, ⟨minX, maxY, maxZ⟩]
  faces :=
    [[0, 3, 2, 1], [4, 5, 6, 7], [0, 1, 5, 4], [2, 3, 7, 6], [0, 4, 7, 3], [1, 2, 6, 5]]

/-- Vertex classification against the cutting plane (`INSIDE = -1`, `ON = 0`,
    `OUTSIDE = 1` in the source). -/
inductive VClass where
  | INSIDE
  | ON
  | OUTSIDE
deriving DecidableEq, Repr

open VClass

/-- The `classify` closure of `cutWithPlane`. -/
def classify (d : ℚ) : VClass :=
  if d < -EPSILON then INSIDE else if EPSILON < d then OUTSIDE else ON

/-- Classification of vertex `i`, reading `classifications[i]` (an index out
    of range classifies the `undefined` distance like the guarded JavaScript
    comparisons do: neither INSIDE nor OUTSIDE). -/
def clsAt (dists : List ℚ) (i : ℕ) : VClass := classify (elemD 0 dists i)

/-- The `getEdgeKey` closure: an undirected edge key from two indices. -/
def getEdgeKey (i j : ℕ) : ℕ × ℕ := if i < j then (i, j) else (j, i)

/-- The intersection point of edge `(i, j)` with the cutting plane, by linear
    interpolation on signed distance, `t = d1 / (d1 - d2)`. -/
def lerpPoint (verts : List Vec3) (dists : List ℚ) (i j : ℕ) : Vec3 :=
  let v1 := elemD ⟨0, 0, 0⟩ verts i
  let v2 := elemD ⟨0, 0, 0⟩ verts j
  let d1 := elemD 0 dists i
  let d2 := elemD 0 dists j
  let t := d1 / (d1 - d2)
  ⟨v1.x + t * (v2.x - v1.x), v1.y + t * (v2.y - v1.y), v1.z + t * (v2.z - v1.z)⟩

/-- The `getOrCreateIntersection` closure; the state is the pair of the
    `newVertices` list and the `edgeIntersections` cache. -/
def getOrCreateIntersection (verts : List Vec3) (dists : List ℚ)
    (s : List Vec3 × List ((ℕ × ℕ) × ℕ)) (i j : ℕ) :
    (List Vec3 × List ((ℕ × ℕ) × ℕ)) × ℕ :=
  let key := getEdgeKey i j
  match alookup key s.2 with
  | some idx => (s, idx)
  | none =>
      ((s.1 ++ [lerpPoint verts dists i j], s.2 ++ [(key, s.1.length)]), s.1.length)

/-- State threaded through the face-processing loop of `cutWithPlane`. -/
structure CutState where
  nv : List Vec3
  cache : List ((ℕ × ℕ) × ℕ)
  capEdges : List (ℕ × ℕ × ℕ)
  newFaces : List (List ℕ)
deriving DecidableEq, Repr

/-- Lookup in the old-to-new vertex map (`vertexMap.get`). -/
def vmapGet (vmap : List (ℕ × ℕ)) (i : ℕ) : ℕ := (alookup i vmap).getD 0

/-- The copy loop of `cutWithPlane`: collects the kept (non-OUTSIDE) vertices
    in index order and records the old-to-new index mapping. -/
def buildVertexMap (verts : List Vec3) (dists : List ℚ) :
    List Vec3 × List (ℕ × ℕ) :=
  (List.range verts.length).foldl
    (fun acc i =>
      if clsAt dists i ≠ OUTSIDE then
        (acc.1 ++ [elemD ⟨0, 0, 0⟩ verts i], acc.2 ++ [(i, acc.1.length)])
      else acc)
    ([], [])

/-- One step of the per-face vertex walk of `cutWithPlane`, for the cyclic
    pair `(curr, next)`; the second state component is the face being built. -/
def processPair (verts : List Vec3) (dists : List ℚ) (vmap : List (ℕ × ℕ))
    (st : CutState × List ℕ) (pr : ℕ × ℕ) : CutState × List ℕ :=
  let s := st.1
  let curr := pr.1
  let next := pr.2
  let currClass := clsAt dists curr
  let nextClass := clsAt dists next
  let newFace := if currClass ≠ OUTSIDE then st.2 ++ [vmapGet vmap curr] else st.2
  if (currClass = INSIDE ∧ nextClass = OUTSIDE) ∨
     (currClass = OUTSIDE ∧ nextClass = INSIDE) then
    let r := getOrCreateIntersection verts dists (s.nv, s.cache) curr next
    ({ s with
        nv := r.1.1
        cache := r.1.2
        capEdges := s.capEdges ++
          [if currClass = INSIDE then (r.2, curr, next) else (r.2, next, curr)] },
      newFace ++ [r.2])
  else if currClass = ON ∧ nextClass = OUTSIDE then
    ({ s with capEdges := s.capEdges ++ [(vmapGet vmap curr, curr, next)] }, newFace)
  else if currClass = OUTSIDE ∧ nextClass = ON then
    ({ s with capEdges := s.capEdges ++ [(vmapGet vmap next, next, curr)] }, newFace)
  else (s, newFace)

/-- The cyclic `(curr, next)` pairs of a face walk. -/
def cyclePairs (face : List ℕ) : List (ℕ × ℕ) := face.zip (face.rotate 1)

/-- Processing of one face of `cutWithPlane`: walk the cyclic pairs, then keep
    the rebuilt face if it has at least 3 vertices. -/
def processFace (verts : List Vec3) (dists : List ℚ) (vmap : List (ℕ × ℕ))
    (s : CutState) (face : List ℕ) : CutState :=
  let r := (cyclePairs face).foldl (processPair verts dists vmap) (s, [])
  if 3 ≤ r.2.length then { r.1 with newFaces := r.1.newFaces ++ [r.2] } else r.1

/-- Band of the `Math.atan2(y, x)` value inside `(-π, π]`, used to compare
    angles exactly: `y < 0` gives `(-π, 0)`, then `0`, then `(0, π)`, then
    `π`. -/
def atan2Band (y x : ℚ) : ℕ :=
  if y < 0 then 0 else if y = 0 ∧ 0 ≤ x then 1 else if 0 < y then 2 else 3

/-- Exact comparison `atan2(y1, x1) ≤ atan2(y2, x2)`: compare bands, and
    within a band compare by the cross product. -/
def angLE (x1 y1 x2 y2 : ℚ) : Bool :=
  decide (atan2Band y1 x1 < atan2Band y2 x2 ∨
    (atan2Band y1 x1 = atan2Band y2 x2 ∧ 0 ≤ x1 * y2 - y1 * x2))

/-- The `buildCapFace` method: the unique intersection vertices, sorted by
    polar angle around their centroid in a tangent basis of the plane (the
    source sorts by `Math.atan2` values; the sort here uses the exact angle
    order, which agrees with the stable comparison sort of the source). -/
def buildCapFace (capEdges : List (ℕ × ℕ × ℕ)) (vertices : List Vec3)
    (plane : Plane) : Option (List ℕ) :=
  if capEdges.length < 3 then none
  else
    let capVertexIndices := dedupFirst (capEdges.map (fun e => e.1))
    if capVertexIndices.length < 3 then none
    else
      let csum := capVertexIndices.foldl
        (fun (c : Vec3) idx => c.add (elemD ⟨0, 0, 0⟩ vertices idx)) ⟨0, 0, 0⟩
      let center : Vec3 :=
        ⟨csum.x / capVertexIndices.length, csum.y / capVertexIndices.length,
         csum.z / capVertexIndices.length⟩
      let normal := plane.normal.scale (-1)
      let tangent :=
        if |normal.x| < 9 / 10 then (Vec3.cross ⟨1, 0, 0⟩ normal).normalize
        else (Vec3.cross ⟨0, 1, 0⟩ normal).normalize
      let bitangent := normal.cross tangent
      some (List.insertionSort
        (fun a b =>
          angLE ((elemD ⟨0, 0, 0⟩ vertices a).sub center |>.dot tangent)
                ((elemD ⟨0, 0, 0⟩ vertices a).sub center |>.dot bitangent)
                ((elemD ⟨0, 0, 0⟩ vertices b).sub center |>.dot tangent)
                ((elemD ⟨0, 0, 0⟩ vertices b).sub center |>.dot bitangent) = true)
        capVertexIndices)

/-- The `hasOutside` check (`classifications.some(c => c === OUTSIDE)`). -/
def hasOutside (cls : List VClass) : Bool := cls.any (fun c => decide (c = OUTSIDE))

/-- The `hasInside` check (`classifications.some(c => c === INSIDE)`). -/
def hasInside (cls : List VClass) : Bool := cls.any (fun c => decide (c = INSIDE))

/-- The rebuild stage of `cutWithPlane` (the code after the two early
    returns): copy kept vertices, process every face, then append the cap
    face when one arises. -/
def cutRebuild (p : ConvexPolyhedron) (plane : Plane) (distances : List ℚ) :
    ConvexPolyhedron :=
  let kept := buildVertexMap p.vertices distances
  let s :=
    p.faces.foldl (processFace p.vertices distances kept.2)
      { nv := kept.1, cache := [], capEdges := [], newFaces := [] }
  let finalFaces :=
    if 3 ≤ s.capEdges.length then
      match buildCapFace s.capEdges s.nv plane with
      | some capFace =>
          if 3 ≤ capFace.length then s.newFaces ++ [capFace] else s.newFaces
      | none => s.newFaces
    else s.newFaces
  { vertices := s.nv, faces := finalFaces }

/-- The `cutWithPlane` method: keep the closed half-space `distance ≤ 0`
    (classification is three-way with tolerance `EPSILON`). -/
def ConvexPolyhedron.cutWithPlane (p : ConvexPolyhedron) (plane : Plane) :
    ConvexPolyhedron :=
  if hasOutside ((p.vertices.map plane.signedDistance).map classify) = false then p
  else if hasInside ((p.vertices.map plane.signedDistance).map classify) = false then
    { vertices := [], faces := [] }
  else cutRebuild p plane (p.vertices.map plane.signedDistance)

/-- The `getEdges` method: deduplicated undirected edges in first-encounter
    order (the source goes through a `Set` of order-normalized string keys). -/
def ConvexPolyhedron.getEdges (p : ConvexPolyhedron) : List (ℕ × ℕ) :=
  p.faces.foldl
    (fun acc face =>
      (cyclePairs face).foldl
        (fun acc2 pr =>
          let key := getEdgeKey pr.1 pr.2
          if key ∈ acc2 then acc2 else acc2 ++ [key])
        acc)
    []

/-- Fan-triangulation triples `(face[0], face[i], face[i+1])` of a face. -/
def fanTriples (face : List ℕ) : List (ℕ × ℕ × ℕ) :=
  (List.range' 1 (face.length - 2)).map
    (fun i => (elemD 0 face 0, elemD 0 face i, elemD 0 face (i + 1)))

/-- The `getVolume` method: tetrahedron decomposition from the origin over
    fan-triangulated faces, absolute value of the signed total. -/
def ConvexPolyhedron.getVolume (p : ConvexPolyhedron) : ℚ :=
  if p.vertices.length < 4 ∨ p.faces.length < 4 then 0
  else
    abs (p.faces.foldl
      (fun acc face =>
        if face.length < 3 then acc
        else acc + (fanTriples face).foldl
          (fun a tr =>
            a + (elemD ⟨0, 0, 0⟩ p.vertices tr.1).dot
                  ((elemD ⟨0, 0, 0⟩ p.vertices tr.2.1).cross
                    (elemD ⟨0, 0, 0⟩ p.vertices tr.2.2)) / 6)
          0)
      0)

/-- The `getCentroid` method: arithmetic mean of the vertices, zero for an
    empty vertex list. -/
def ConvexPolyhedron.getCentroid (p : ConvexPolyhedron) : Vec3 :=
  if p.vertices.length = 0 then ⟨0, 0, 0⟩
  else
    let s := p.vertices.foldl (fun (a : Vec3) v => a.add v) ⟨0, 0, 0⟩
    ⟨s.x / p.vertices.length, s.y / p.vertices.length, s.z / p.vertices.length⟩

/-- A bounding box `{min, max}`. -/
structure Bounds where
  min : Vec3
  max : Vec3
deriving DecidableEq, Repr

/-- One output cell of the tessellation: a seed paired with its polyhedron. -/
structure Cell where
  seed : Vec3
  cell : ConvexPolyhedron
deriving DecidableEq, Repr

/-- Squared Euclidean distance between two seeds; the driver sorts by
    `Math.sqrt` of this, and sorting by the square is the same order. -/
def distSq (a b : Vec3) : ℚ :=
  (b.x - a.x) * (b.x - a.x) + (b.y - a.y) * (b.y - a.y) + (b.z - a.z) * (b.z - a.z)

/-- The driver's per-cut guard `Math.max(...distances) < -EPSILON`
    (`Math.max` of an empty spread is `-Infinity`, which is below any bound). -/
def maxLtNegEps (l : List ℚ) : Bool :=
  match l.max? with
  | none => true
  | some m => decide (m < -EPSILON)

/-- The body of the clipping loop of `computeVoronoiCells` for one already
    sorted other seed (the `break` on an empty cell is modelled by the
    equivalent skip, since an empty cell is left untouched forever after). -/
def clipStep (seed : Vec3) (cell : ConvexPolyhedron) (other : Vec3) :
    ConvexPolyhedron :=
  if cell.vertices.length = 0 then cell
  else
    let bisector := Plane.perpendicularBisector seed other
    if maxLtNegEps (cell.vertices.map bisector.signedDistance) = true then cell
    else cell.cutWithPlane bisector

/-- The `computeVoronoiCells` driver.  Seeds are modelled by their
    coordinates; the reference-identity filter `s !== seed` of the source is
    modelled by filtering on the list position.  The source's default
    padding is `0.5`. -/
def computeVoronoiCells (seeds : List Vec3) (bounds : Bounds) (padding : ℚ) :
    List Cell :=
  if seeds.length = 0 then []
  else
    let emin : Vec3 :=
      ⟨bounds.min.x - padding, bounds.min.y - padding, bounds.min.z - padding⟩
    let emax : Vec3 :=
      ⟨bounds.max.x + padding, bounds.max.y + padding, bounds.max.z + padding⟩
    (List.range seeds.length).foldl
      (fun cells k =>
        let seed := elemD ⟨0, 0, 0⟩ seeds k
        let cell0 := ConvexPolyhedron.createBox emin.x emin.y emin.z emax.x emax.y emax.z
        let others :=
          ((List.range seeds.length).filter (fun j => j ≠ k)).map
            (fun j => elemD ⟨0, 0, 0⟩ seeds j)
        let sorted := List.insertionSort
          (fun a b => decide (distSq seed a ≤ distSq seed b) = true) others
        let final := sorted.foldl (clipStep seed) cell0
        if 0 < final.vertices.length then cells ++ [⟨seed, final⟩] else cells)
      []

/-- Mesh data extracted from a finished cell (`cellToMeshData`). -/
structure MeshData where
  vertices : List ℚ
  indices : List ℕ
  edges : List (ℕ × ℕ)
  faceData : List (List ℕ × Vec3)
  vertexCount : ℕ
  faceCount : ℕ
  volume : ℚ
  centroid : Vec3
deriving DecidableEq, Repr

/-- The `cellToMeshData` conversion routine. -/
def cellToMeshData (cell : ConvexPolyhedron) : MeshData where
  vertices := cell.vertices.foldl (fun acc v => acc ++ [v.x, v.y, v.z]) []
  indices :=
    cell.faces.foldl
      (fun acc face =>
        if face.length < 3 then acc
        else (fanTriples face).foldl
          (fun a tr => a ++ [tr.1, tr.2.1, tr.2.2]) acc)
      []
  edges := cell.getEdges
  faceData :=
    cell.faces.map (fun face =>
      (face,
        let c := face.foldl
          (fun (a : Vec3) idx => a.add (elemD ⟨0, 0, 0⟩ cell.vertices idx)) ⟨0, 0, 0⟩
        ⟨c.x / face.length, c.y / face.length, c.z / face.length⟩))
  vertexCount := cell.vertices.length
  faceCount := cell.faces.length
  volume := cell.getVolume
  centroid := cell.getCentroid

/-- The documented polyhedron invariant: every face has at least 3 vertices
    and references only valid indices into the vertex list. -/
def validPoly (p : ConvexPolyhedron) : Prop :=
  ∀ f ∈ p.faces, 3 ≤ f.length ∧ ∀ ix ∈ f, ix < p.vertices.length

instance (p : ConvexPolyhedron) : Decidable (validPoly p) := by
  unfold validPoly; infer_instance

/-- Invariant carried through the face-processing state of `cutWithPlane`:
    the kept-vertex prefix persists, and every index recorded in the cache,
    the cap-edge list or an already rebuilt face is a valid vertex index. -/
def CutInv (kl : ℕ) (s : CutState) : Prop :=
  kl ≤ s.nv.length ∧
  (∀ pr ∈ s.cache, pr.2 < s.nv.length) ∧
  (∀ e ∈ s.capEdges, e.1 < s.nv.length) ∧
  (∀ f ∈ s.newFaces, 3 ≤ f.length ∧ ∀ ix ∈ f, ix < s.nv.length)

/-! Concrete instances used by the claims. -/

/-- The two seeds of the two-seed tessellation test. -/
def twoSeeds : List Vec3 := [⟨-1, 0, 0⟩, ⟨1, 0, 0⟩]

/-- The bounding box `[-2, 2]³`. -/
def boxBounds : Bounds := ⟨⟨-2, -2, -2⟩, ⟨2, 2, 2⟩⟩

/-- The unit box `[-0.5, 0.5]³`. -/
def unitBox : ConvexPolyhedron :=
  ConvexPolyhedron.createBox (-(1 / 2)) (-(1 / 2)) (-(1 / 2)) (1 / 2) (1 / 2) (1 / 2)

/-- The plane `x = 0` with normal pointing `+x`, through the origin. -/
def planeX0 : Plane := Plane.fromPointAndNormal ⟨0, 0, 0⟩ ⟨1, 0, 0⟩

/-- The corners of the half box `[-0.5, 0] × [-0.5, 0.5] × [-0.5, 0.5]`. -/
def halfBoxCorners : List Vec3 :=
  [⟨-(1 / 2), -(1 / 2), -(1 / 2)⟩, ⟨-(1 / 2), 1 / 2, -(1 / 2)⟩,
   ⟨-(1 / 2), -(1 / 2), 1 / 2⟩, ⟨-(1 / 2), 1 / 2, 1 / 2⟩,
   ⟨0, 1 / 2, -(1 / 2)⟩, ⟨0, -(1 / 2), -(1 / 2)⟩,
   ⟨0, -(1 / 2), 1 / 2⟩, ⟨0, 1 / 2, 1 / 2⟩]

/-- C1: for seeds `(-1,0,0)` and `(1,0,0)` in the box `[-2,2]³` with padding
    0, `computeVoronoiCells` returns exactly two cells and each cell's
    polyhedron has volume 32. -/
theorem claim_C1 :
    (computeVoronoiCells twoSeeds boxBounds 0).length = 2 ∧
    (computeVoronoiCells twoSeeds boxBounds 0).map (fun c => c.cell.getVolume) =
      [32, 32] := by
  with_unfolding_all decide

/-- C2: cutting the unit box with the plane `x = 0` (normal `+x`, keeping the
    negative half-space) gives exactly 8 vertices, whose set is the corner set
    of `[-0.5, 0] × [-0.5, 0.5] × [-0.5, 0.5]`, and volume `1/2`. -/
theorem claim_C2 :
    (unitBox.cutWithPlane planeX0).vertices.length = 8 ∧
    (∀ v ∈ (unitBox.cutWithPlane planeX0).vertices, v ∈ halfBoxCorners) ∧
    (∀ v ∈ halfBoxCorners, v ∈ (unitBox.cutWithPlane planeX0).vertices) ∧
    (unitBox.cutWithPlane planeX0).getVolume = 1 / 2 := by
  with_unfolding_all decide

/-- C9: the empty seed list yields the empty cell list, for every bounding box
    and every padding. -/
theorem claim_C9 (bounds : Bounds) (padding : ℚ) :
    computeVoronoiCells [] bounds padding = [] := rfl

/-- C10: `cellToMeshData` is total on the empty polyhedron, returning volume
    0, centroid `(0,0,0)` and empty arrays; moreover `getVolume` returns 0 on
    any polyhedron with fewer than 4 vertices or fewer than 4 faces, and
    `getCentroid` returns the zero vector on any empty vertex list. -/
theorem claim_C10 :
    cellToMeshData ⟨[], []⟩ =
      { vertices := [], indices := [], edges := [], faceData := [],
        vertexCount := 0, faceCount := 0, volume := 0, centroid := ⟨0, 0, 0⟩ } ∧
    (∀ p : ConvexPolyhedron,
      p.vertices.length < 4 ∨ p.faces.length < 4 → p.getVolume = 0) ∧
    (∀ p : ConvexPolyhedron, p.vertices = [] → p.getCentroid = ⟨0, 0, 0⟩) := by
  refine ⟨by decide, ?_, ?_⟩
  · intro p h
    unfold ConvexPolyhedron.getVolume
    rw [if_pos h]
  · intro p h
    unfold ConvexPolyhedron.getCentroid
    rw [if_pos (by rw [h]; rfl)]

/-- Witness for C10 at the empty polyhedron. -/
theorem claim_C10_witness :
    (⟨[], []⟩ : ConvexPolyhedron).getVolume = 0 ∧
    (⟨[], []⟩ : ConvexPolyhedron).getCentroid = ⟨0, 0, 0⟩ :=
  ⟨claim_C10.2.1 ⟨[], []⟩ (Or.inl (by decide)), claim_C10.2.2 ⟨[], []⟩ rfl⟩

/-! General helper lemmas. -/

/-- The tolerance is strictly positive. -/
theorem eps_pos : (0 : ℚ) < EPSILON := by norm_num [EPSILON]

/-- Preservation of an invariant along a left fold, with membership of the
    step element available. -/
theorem foldl_invariant {α β : Type} (f : α → β → α) (P : α → Prop) :
    ∀ (l : List β) (a : α), (∀ x b, b ∈ l → P x → P (f x b)) → P a →
      P (l.foldl f a)
  | [], _, _, h => h
  | b :: t, a, hstep, h =>
    foldl_invariant f P t (f a b)
      (fun x c hc hx => hstep x c (List.mem_cons_of_mem _ hc) hx)
      (hstep a b (List.mem_cons_self _ _) h)

theorem elemD_eq_default {α : Type} (d : α) :
    ∀ (l : List α) (i : ℕ), l.length ≤ i → elemD d l i = d
  | [], _, _ => rfl
  | _ :: t, i + 1, h =>
    elemD_eq_default d t i (by simpa using h)

theorem elemD_map {α β : Type} (f : α → β) (d : β) (d0 : α) :
    ∀ (l : List α) (i : ℕ), i < l.length → elemD d (l.map f) i = f (elemD d0 l i)
  | a :: t, 0, _ => rfl
  | a :: t, i + 1, h => elemD_map f d d0 t i (by simpa using h)

theorem elemD_mem {α : Type} (d : α) :
    ∀ (l : List α) (i : ℕ), i < l.length → elemD d l i ∈ l
  | a :: t, 0, _ => List.mem_cons_self _ _
  | a :: t, i + 1, h =>
    List.mem_cons_of_mem _ (elemD_mem d t i (by simpa using h))

theorem alookup_mem {α β : Type} [DecidableEq α] (k : α) (v : β) :
    ∀ l : List (α × β), alookup k l = some v → (k, v) ∈ l := by
  intro l
  induction l with
  | nil => intro h; exact absurd h (by simp [alookup])
  | cons p t ih =>
      intro h
      obtain ⟨k1, v1⟩ := p
      rw [alookup] at h
      split_ifs at h with hk
      · injection h with h2
        subst hk; subst h2
        exact List.mem_cons_self _ _
      · exact List.mem_cons_of_mem _ (ih h)

theorem alookup_append_right {α β : Type} [DecidableEq α] (k : α) (v : β) :
    ∀ l : List (α × β), alookup k l = none → alookup k (l ++ [(k, v)]) = some v := by
  intro l
  induction l with
  | nil => intro _; simp [alookup]
  | cons p t ih =>
      intro h
      obtain ⟨k1, v1⟩ := p
      rw [alookup] at h
      rw [List.cons_append, alookup]
      by_cases hk : k1 = k
      · rw [if_pos hk] at h
        exact absurd h (by simp)
      · rw [if_neg hk] at h
        rw [if_neg hk]
        exact ih h

/-- Classification is OUTSIDE exactly above the tolerance. -/
theorem classify_eq_outside {d : ℚ} : classify d = OUTSIDE ↔ EPSILON < d := by
  unfold classify
  split_ifs with h1 h2
  · simp only [reduceCtorEq, false_iff, not_lt]
    have := eps_pos; linarith
  · simp [h2]
  · simp only [reduceCtorEq, false_iff, not_lt]
    exact le_of_not_lt h2

/-- Classification is INSIDE exactly below the negated tolerance. -/
theorem classify_eq_inside {d : ℚ} : classify d = INSIDE ↔ d < -EPSILON := by
  unfold classify
  split_ifs with h1 h2
  · simp [h1]
  · simp only [reduceCtorEq, false_iff, not_lt]
    have := eps_pos; linarith
  · simp only [reduceCtorEq, false_iff, not_lt]
    exact le_of_not_lt h1

theorem hasOutside_eq_false {dists : List ℚ} :
    hasOutside (dists.map classify) = false ↔ ∀ d ∈ dists, d ≤ EPSILON := by
  unfold hasOutside
  rw [← Bool.not_eq_true, List.any_eq_true]
  constructor
  · intro h d hd
    by_contra hlt
    exact h ⟨classify d, List.mem_map_of_mem _ hd,
      by simp [classify_eq_outside]; linarith⟩
  · rintro h ⟨c, hc, hdec⟩
    rw [List.mem_map] at hc
    obtain ⟨d, hd, rfl⟩ := hc
    rw [decide_eq_true_iff, classify_eq_outside] at hdec
    exact absurd hdec (not_lt.2 (h d hd))

theorem hasInside_eq_false {dists : List ℚ} :
    hasInside (dists.map classify) = false ↔ ∀ d ∈ dists, -EPSILON ≤ d := by
  unfold hasInside
  rw [← Bool.not_eq_true, List.any_eq_true]
  constructor
  · intro h d hd
    by_contra hlt
    exact h ⟨classify d, List.mem_map_of_mem _ hd,
      by simp [classify_eq_inside]; linarith⟩
  · rintro h ⟨c, hc, hdec⟩
    rw [List.mem_map] at hc
    obtain ⟨d, hd, rfl⟩ := hc
    rw [decide_eq_true_iff, classify_eq_inside] at hdec
    exact absurd hdec (not_lt.2 (h d hd))

theorem hasOutside_eq_true {dists : List ℚ} :
    hasOutside (dists.map classify) = true ↔ ∃ d ∈ dists, EPSILON < d := by
  rw [← not_iff_not, Bool.not_eq_true, hasOutside_eq_false]
  push_neg
  simp only [not_lt]

/-- The no-cut branch of `cutWithPlane`: when no vertex classifies OUTSIDE,
    the polyhedron is returned untouched. -/
theorem cutWithPlane_noop (p : ConvexPolyhedron) (pl : Plane)
    (h : ∀ v ∈ p.vertices, pl.signedDistance v ≤ EPSILON) :
    p.cutWithPlane pl = p := by
  unfold ConvexPolyhedron.cutWithPlane
  have hfalse :
      hasOutside ((p.vertices.map pl.signedDistance).map classify) = false := by
    rw [hasOutside_eq_false]
    intro d hd
    rw [List.mem_map] at hd
    obtain ⟨v, hv, rfl⟩ := hd
    exact h v hv
  rw [hfalse, if_pos rfl]

/-- The discard branch of `cutWithPlane`: some vertex OUTSIDE and none
    INSIDE empties the polyhedron. -/
theorem cutWithPlane_discard (p : ConvexPolyhedron) (pl : Plane)
    (hout : ∃ v ∈ p.vertices, EPSILON < pl.signedDistance v)
    (hin : ∀ v ∈ p.vertices, -EPSILON ≤ pl.signedDistance v) :
    p.cutWithPlane pl = ⟨[], []⟩ := by
  unfold ConvexPolyhedron.cutWithPlane
  have htrue :
      hasOutside ((p.vertices.map pl.signedDistance).map classify) = true := by
    rw [hasOutside_eq_true]
    obtain ⟨v, hv, hlt⟩ := hout
    exact ⟨pl.signedDistance v, List.mem_map_of_mem _ hv, hlt⟩
  have hfalse :
      hasInside ((p.vertices.map pl.signedDistance).map classify) = false := by
    rw [hasInside_eq_false]
    intro d hd
    rw [List.mem_map] at hd
    obtain ⟨v, hv, rfl⟩ := hd
    exact hin v hv
  rw [htrue, if_neg (by simp), hfalse, if_pos rfl]

/-- C3: whenever some vertex lies strictly outside the tolerance band and no
    vertex lies strictly inside, `cutWithPlane` empties both the vertex list
    and the face list. -/
theorem claim_C3 (p : ConvexPolyhedron) (pl : Plane)
    (hout : ∃ v ∈ p.vertices, EPSILON < pl.signedDistance v)
    (hin : ∀ v ∈ p.vertices, ¬ pl.signedDistance v < -EPSILON) :
    (p.cutWithPlane pl).vertices = [] ∧ (p.cutWithPlane pl).faces = [] := by
  have := cutWithPlane_discard p pl hout (fun v hv => le_of_not_lt (hin v hv))
  rw [this]
  exact ⟨rfl, rfl⟩

/-- Witness for C3: a plane strictly to the left of the unit box. -/
theorem claim_C3_witness :
    ((unitBox.cutWithPlane ⟨⟨1, 0, 0⟩, 1⟩).vertices = [] ∧
      (unitBox.cutWithPlane ⟨⟨1, 0, 0⟩, 1⟩).faces = []) :=
  claim_C3 unitBox ⟨⟨1, 0, 0⟩, 1⟩ (by with_unfolding_all decide)
    (by with_unfolding_all decide)

theorem mem_le_max {l : List ℚ} {m : ℚ} (h : l.max? = some m) :
    ∀ d ∈ l, d ≤ m := by
  haveI : Std.Antisymm ((· : ℚ) ≤ ·) := ⟨fun h1 h2 => le_antisymm h1 h2⟩
  exact ((List.max?_eq_some_iff (fun a => le_refl a) (fun a b => max_choice a b)
    (fun a b c => max_le_iff)).mp h).2

/-- The driver guard forces every signed distance strictly below the negated
    tolerance. -/
theorem maxLtNegEps_forall {l : List ℚ} (h : maxLtNegEps l = true) :
    ∀ d ∈ l, d < -EPSILON := by
  unfold maxLtNegEps at h
  intro d hd
  cases hm : l.max? with
  | none => rw [List.max?_eq_none_iff] at hm; subst hm; simp at hd
  | some m =>
      rw [hm, decide_eq_true_iff] at h
      exact lt_of_le_of_lt (mem_le_max hm d hd) h

/-- C5: the early-continue branch of the driver is behaviorally equivalent to
    performing the cut: when the maximum signed distance of the cell's
    vertices to the bisector is below `-EPSILON`, the driver's clip step
    leaves the cell untouched, and calling `cutWithPlane` with that bisector
    would return exactly the same vertex and face lists. -/
theorem claim_C5 (seed : Vec3) (cell : ConvexPolyhedron) (other : Vec3)
    (h : maxLtNegEps
      (cell.vertices.map (Plane.perpendicularBisector seed other).signedDistance) =
      true) :
    clipStep seed cell other = cell ∧
    cell.cutWithPlane (Plane.perpendicularBisector seed other) = cell := by
  have hcut : cell.cutWithPlane (Plane.perpendicularBisector seed other) = cell := by
    apply cutWithPlane_noop
    intro v hv
    have := maxLtNegEps_forall h _ (List.mem_map_of_mem _ hv)
    have := eps_pos
    linarith
  refine ⟨?_, hcut⟩
  unfold clipStep
  by_cases hempty : cell.vertices.length = 0
  · rw [if_pos hempty]
  · rw [if_neg hempty, if_pos h]

/-- Witness for C5: a far-away other seed whose bisector misses the unit
    box. -/
theorem claim_C5_witness :
    clipStep ⟨0, 0, 0⟩ unitBox ⟨4, 0, 0⟩ = unitBox ∧
    unitBox.cutWithPlane (Plane.perpendicularBisector ⟨0, 0, 0⟩ ⟨4, 0, 0⟩) =
      unitBox :=
  claim_C5 ⟨0, 0, 0⟩ unitBox ⟨4, 0, 0⟩ (by with_unfolding_all decide)

/-- Zero distance classifies as ON. -/
theorem classify_zero : classify 0 = ON := by
  have h := eps_pos
  unfold classify
  rw [if_neg (by linarith), if_neg (by linarith)]

/-- Only indices inside the distance list can classify INSIDE or OUTSIDE. -/
theorem clsAt_lt_length {dists : List ℚ} {i : ℕ} (h : clsAt dists i ≠ ON) :
    i < dists.length := by
  by_contra hle
  push_neg at hle
  apply h
  unfold clsAt
  rw [elemD_eq_default _ _ _ hle]
  exact classify_zero

/-- Algebraic core of the interpolation: `t = D1 / (D1 - D2)` lands exactly
    on the plane. -/
theorem lerp_cancel (D1 D2 : ℚ) (h : D1 - D2 ≠ 0) :
    D1 + D1 / (D1 - D2) * (D2 - D1) = 0 := by
  field_simp
  ring

/-- Signed distance is affine along the interpolated segment. -/
theorem sd_lerp_linear (pl : Plane) (a b : Vec3) (t : ℚ) :
    pl.signedDistance
      ⟨a.x + t * (b.x - a.x), a.y + t * (b.y - a.y), a.z + t * (b.z - a.z)⟩ =
    pl.signedDistance a + t * (pl.signedDistance b - pl.signedDistance a) := by
  unfold Plane.signedDistance Vec3.dot
  ring

/-- The interpolated edge intersection lies exactly on the cutting plane,
    whenever the two endpoints straddle it. -/
theorem lerpPoint_signedDistance (pl : Plane) (verts : List Vec3)
    (dists : List ℚ) (hd : dists = verts.map pl.signedDistance) (i j : ℕ)
    (hstraddle :
      clsAt dists i = INSIDE ∧ clsAt dists j = OUTSIDE ∨
      clsAt dists i = OUTSIDE ∧ clsAt dists j = INSIDE) :
    pl.signedDistance (lerpPoint verts dists i j) = 0 := by
  have hi : i < dists.length := by
    apply clsAt_lt_length
    rcases hstraddle with ⟨h1, _⟩ | ⟨h1, _⟩ <;> simp [h1]
  have hj : j < dists.length := by
    apply clsAt_lt_length
    rcases hstraddle with ⟨_, h2⟩ | ⟨_, h2⟩ <;> simp [h2]
  have hlen : dists.length = verts.length := by rw [hd, List.length_map]
  have ei : elemD 0 dists i = pl.signedDistance (elemD ⟨0, 0, 0⟩ verts i) := by
    rw [hd]; exact elemD_map _ _ _ _ _ (by rw [← hlen]; exact hi)
  have ej : elemD 0 dists j = pl.signedDistance (elemD ⟨0, 0, 0⟩ verts j) := by
    rw [hd]; exact elemD_map _ _ _ _ _ (by rw [← hlen]; exact hj)
  have hne : elemD 0 dists i - elemD 0 dists j ≠ 0 := by
    have h := eps_pos
    rcases hstraddle with ⟨h1, h2⟩ | ⟨h1, h2⟩
    · rw [clsAt, classify_eq_inside] at h1
      rw [clsAt, classify_eq_outside] at h2
      unfold clsAt at *
      intro hc; linarith [hc]
    · rw [clsAt, classify_eq_outside] at h1
      rw [clsAt, classify_eq_inside] at h2
      intro hc; linarith [hc]
  rw [ei, ej] at hne
  unfold lerpPoint
  rw [ei, ej, sd_lerp_linear]
  exact lerp_cancel _ _ hne

/-- Shape of the vertex list after one pair step: unchanged, or extended by
    the interpolated intersection of a straddling pair. -/
theorem processPair_nv (verts : List Vec3) (dists : List ℚ)
    (vmap : List (ℕ × ℕ)) (st : CutState × List ℕ) (pr : ℕ × ℕ) :
    (processPair verts dists vmap st pr).1.nv = st.1.nv ∨
    ((clsAt dists pr.1 = INSIDE ∧ clsAt dists pr.2 = OUTSIDE ∨
      clsAt dists pr.1 = OUTSIDE ∧ clsAt dists pr.2 = INSIDE) ∧
      (processPair verts dists vmap st pr).1.nv =
        st.1.nv ++ [lerpPoint verts dists pr.1 pr.2]) := by
  by_cases hst :
      (clsAt dists pr.1 = INSIDE ∧ clsAt dists pr.2 = OUTSIDE) ∨
      (clsAt dists pr.1 = OUTSIDE ∧ clsAt dists pr.2 = INSIDE)
  · cases hlook : alookup (getEdgeKey pr.1 pr.2) st.1.cache with
    | some idx =>
        left
        simp only [processPair, getOrCreateIntersection, hlook, if_pos hst]
    | none =>
        right
        refine ⟨by tauto, ?_⟩
        simp only [processPair, getOrCreateIntersection, hlook, if_pos hst]
  · left
    simp only [processPair, if_neg hst]
    by_cases h2 : clsAt dists pr.1 = ON ∧ clsAt dists pr.2 = OUTSIDE
    · rw [if_pos h2]
    · rw [if_neg h2]
      by_cases h3 : clsAt dists pr.1 = OUTSIDE ∧ clsAt dists pr.2 = ON
      · rw [if_pos h3]
      · rw [if_neg h3]

/-- A non-OUTSIDE classification bounds the distance by the tolerance. -/
theorem le_eps_of_clsAt_ne_outside {dists : List ℚ} {i : ℕ}
    (h : clsAt dists i ≠ OUTSIDE) : elemD 0 dists i ≤ EPSILON := by
  unfold clsAt at h
  rw [Ne, classify_eq_outside] at h
  exact le_of_not_lt h

/-- All vertices copied by the kept-vertex loop are within the tolerance. -/
theorem buildVertexMap_fst_le (pl : Plane) (verts : List Vec3) (dists : List ℚ)
    (hd : dists = verts.map pl.signedDistance) :
    ∀ v ∈ (buildVertexMap verts dists).1, pl.signedDistance v ≤ EPSILON := by
  unfold buildVertexMap
  apply foldl_invariant _
    (fun acc : List Vec3 × List (ℕ × ℕ) => ∀ v ∈ acc.1, pl.signedDistance v ≤ EPSILON)
  · intro acc i hi hacc
    by_cases hc : clsAt dists i ≠ OUTSIDE
    · rw [if_pos hc]
      intro v hv
      rcases List.mem_append.mp hv with hold | hnew
      · exact hacc v hold
      · have hlt : i < verts.length := List.mem_range.mp hi
        have : v = elemD ⟨0, 0, 0⟩ verts i := List.mem_singleton.mp hnew
        subst this
        have := le_eps_of_clsAt_ne_outside hc
        rwa [hd, elemD_map _ _ (⟨0, 0, 0⟩ : Vec3) _ _ hlt] at this
    · rw [if_neg hc]
      exact hacc
  · intro v hv
    simp at hv

/-- The vertex list of the face-processing fold stays within the tolerance. -/
theorem foldFaces_nv_le (pl : Plane) (verts : List Vec3) (dists : List ℚ)
    (hd : dists = verts.map pl.signedDistance) (vmap : List (ℕ × ℕ))
    (faces : List (List ℕ)) (s0 : CutState)
    (h0 : ∀ v ∈ s0.nv, pl.signedDistance v ≤ EPSILON) :
    ∀ v ∈ (faces.foldl (processFace verts dists vmap) s0).nv,
      pl.signedDistance v ≤ EPSILON := by
  apply foldl_invariant _
    (fun s : CutState => ∀ v ∈ s.nv, pl.signedDistance v ≤ EPSILON) _ _ _ h0
  intro s face _ hs
  unfold processFace
  have hinner :
      ∀ v ∈ ((cyclePairs face).foldl (processPair verts dists vmap) (s, [])).1.nv,
        pl.signedDistance v ≤ EPSILON := by
    apply foldl_invariant _
      (fun x : CutState × List ℕ => ∀ v ∈ x.1.nv, pl.signedDistance v ≤ EPSILON)
    · intro x pr _ hx
      rcases processPair_nv verts dists vmap x pr with heq | ⟨hst, heq⟩
      · rw [heq]; exact hx
      · rw [heq]
        intro v hv
        rcases List.mem_append.mp hv with hold | hnew
        · exact hx v hold
        · have : v = lerpPoint verts dists pr.1 pr.2 := List.mem_singleton.mp hnew
          subst this
          rw [lerpPoint_signedDistance pl verts dists hd pr.1 pr.2 hst]
          exact le_of_lt eps_pos
    · exact hs
  by_cases hlen :
      3 ≤ ((cyclePairs face).foldl (processPair verts dists vmap) (s, [])).2.length
  · rw [if_pos hlen]; exact hinner
  · rw [if_neg hlen]; exact hinner

/-- Every vertex of a cut polyhedron has signed distance at most the
    tolerance: kept vertices were not OUTSIDE, and intersection vertices lie
    exactly on the plane. -/
theorem cutWithPlane_vertices_le (p : ConvexPolyhedron) (pl : Plane) :
    ∀ v ∈ (p.cutWithPlane pl).vertices, pl.signedDistance v ≤ EPSILON := by
  unfold ConvexPolyhedron.cutWithPlane
  by_cases h1 :
      hasOutside ((p.vertices.map pl.signedDistance).map classify) = false
  · rw [if_pos h1]
    intro v hv
    exact (hasOutside_eq_false.mp h1) _ (List.mem_map_of_mem _ hv)
  · rw [if_neg h1]
    by_cases h2 :
        hasInside ((p.vertices.map pl.signedDistance).map classify) = false
    · rw [if_pos h2]
      intro v hv
      simp at hv
    · rw [if_neg h2]
      unfold cutRebuild
      exact foldFaces_nv_le pl p.vertices _ rfl _ p.faces _
        (buildVertexMap_fst_le pl p.vertices _ rfl)

/-- C4: `cutWithPlane` is a no-op when no vertex classifies OUTSIDE, and is
    idempotent: recutting with the same plane never changes the result. -/
theorem claim_C4 :
    (∀ (p : ConvexPolyhedron) (pl : Plane),
        (∀ v ∈ p.vertices, pl.signedDistance v ≤ EPSILON) →
        p.cutWithPlane pl = p) ∧
    ∀ (p : ConvexPolyhedron) (pl : Plane),
      (p.cutWithPlane pl).cutWithPlane pl = p.cutWithPlane pl :=
  ⟨cutWithPlane_noop,
    fun p pl => cutWithPlane_noop _ _ (cutWithPlane_vertices_le p pl)⟩

/-- Witness for C4: a plane entirely to the right of the unit box. -/
theorem claim_C4_witness :
    unitBox.cutWithPlane ⟨⟨1, 0, 0⟩, -10⟩ = unitBox :=
  claim_C4.1 unitBox ⟨⟨1, 0, 0⟩, -10⟩ (by with_unfolding_all decide)

/-! Lemmas for the preservation of the polyhedron invariant (C7). -/

theorem elemD_eq_get {α : Type} (d : α) :
    ∀ (l : List α) (i : ℕ) (h : i < l.length), elemD d l i = l.get ⟨i, h⟩
  | a :: t, 0, _ => rfl
  | a :: t, i + 1, h => elemD_eq_get d t i (by simpa using h)

theorem dedupFirst_subset {l : List ℕ} : ∀ a ∈ dedupFirst l, a ∈ l := by
  unfold dedupFirst
  apply foldl_invariant _ (fun acc : List ℕ => ∀ a ∈ acc, a ∈ l)
  · intro acc b hb hacc
    by_cases hmem : b ∈ acc
    · rw [if_pos hmem]; exact hacc
    · rw [if_neg hmem]
      intro a ha
      rcases List.mem_append.mp ha with hold | hnew
      · exact hacc a hold
      · rw [List.mem_singleton.mp hnew]; exact hb
  · intro a ha; simp at ha

theorem vmapGet_lt {vmap : List (ℕ × ℕ)} {kl : ℕ}
    (hv : ∀ pr ∈ vmap, pr.2 < kl) (hk : 1 ≤ kl) (i : ℕ) : vmapGet vmap i < kl := by
  unfold vmapGet
  cases hlook : alookup i vmap with
  | none => simpa using hk
  | some v => simpa using hv _ (alookup_mem _ _ _ hlook)

/-- Bounds produced by one cache access: the vertex list only grows, cached
    indices stay valid, and the returned index is valid. -/
theorem getOrCreate_spec (verts : List Vec3) (dists : List ℚ)
    (s : List Vec3 × List ((ℕ × ℕ) × ℕ)) (i j : ℕ)
    (hc : ∀ pr ∈ s.2, pr.2 < s.1.length) :
    s.1.length ≤ (getOrCreateIntersection verts dists s i j).1.1.length ∧
    (∀ pr ∈ (getOrCreateIntersection verts dists s i j).1.2,
        pr.2 < (getOrCreateIntersection verts dists s i j).1.1.length) ∧
    (getOrCreateIntersection verts dists s i j).2 <
      (getOrCreateIntersection verts dists s i j).1.1.length := by
  unfold getOrCreateIntersection
  cases hlook : alookup (getEdgeKey i j) s.2 with
  | some idx =>
      simp only [hlook]
      exact ⟨le_refl _, hc, hc _ (alookup_mem _ _ _ hlook)⟩
  | none =>
      simp only [hlook]
      refine ⟨by simp, ?_, by simp⟩
      intro pr hpr
      rcases List.mem_append.mp hpr with hold | hnew
      · have := hc pr hold
        simp only [List.length_append, List.length_singleton]
        omega
      · rw [List.mem_singleton.mp hnew]
        simp only [List.length_append, List.length_singleton]
        omega

/-- One pair step preserves the cut-state invariant, also for the face being
    built. -/
theorem processPair_inv (verts : List Vec3) (dists : List ℚ)
    (vmap : List (ℕ × ℕ)) (kl : ℕ)
    (hvmap : ∀ pr ∈ vmap, pr.2 < kl) (hk : 1 ≤ kl)
    (x : CutState × List ℕ) (pr : ℕ × ℕ)
    (hx : CutInv kl x.1 ∧ ∀ ix ∈ x.2, ix < x.1.nv.length) :
    CutInv kl (processPair verts dists vmap x pr).1 ∧
    ∀ ix ∈ (processPair verts dists vmap x pr).2,
      ix < (processPair verts dists vmap x pr).1.nv.length := by
  obtain ⟨⟨hkl, hcache, hcap, hfaces⟩, hface⟩ := hx
  have hvg : ∀ i, vmapGet vmap i < x.1.nv.length :=
    fun i => lt_of_lt_of_le (vmapGet_lt hvmap hk i) hkl
  have hemit : ∀ ix ∈ (if clsAt dists pr.1 ≠ OUTSIDE then
      x.2 ++ [vmapGet vmap pr.1] else x.2), ix < x.1.nv.length := by
    by_cases hc : clsAt dists pr.1 ≠ OUTSIDE
    · rw [if_pos hc]
      intro ix hix
      rcases List.mem_append.mp hix with ha | hb
      · exact hface ix ha
      · rw [List.mem_singleton.mp hb]; exact hvg pr.1
    · rw [if_neg hc]; exact hface
  by_cases hst :
      (clsAt dists pr.1 = INSIDE ∧ clsAt dists pr.2 = OUTSIDE) ∨
      (clsAt dists pr.1 = OUTSIDE ∧ clsAt dists pr.2 = INSIDE)
  · obtain ⟨hlen, hcache2, hidx⟩ :=
      getOrCreate_spec verts dists (x.1.nv, x.1.cache) pr.1 pr.2 hcache
    simp only [processPair, if_pos hst]
    refine ⟨⟨le_trans hkl hlen, hcache2, ?_, ?_⟩, ?_⟩
    · intro e he
      rcases List.mem_append.mp he with hold | hnew
      · exact lt_of_lt_of_le (hcap e hold) hlen
      · have he2 := List.mem_singleton.mp hnew
        by_cases hc : clsAt dists pr.1 = INSIDE
        · rw [if_pos hc] at he2; rw [he2]; exact hidx
        · rw [if_neg hc] at he2; rw [he2]; exact hidx
    · intro f hf
      obtain ⟨h3, hlt⟩ := hfaces f hf
      exact ⟨h3, fun ix hix => lt_of_lt_of_le (hlt ix hix) hlen⟩
    · intro ix hix
      rcases List.mem_append.mp hix with h1 | h2
      · exact lt_of_lt_of_le (hemit ix h1) hlen
      · rw [List.mem_singleton.mp h2]; exact hidx
  · simp only [processPair, if_neg hst]
    by_cases h2 : clsAt dists pr.1 = ON ∧ clsAt dists pr.2 = OUTSIDE
    · rw [if_pos h2]
      refine ⟨⟨hkl, hcache, ?_, hfaces⟩, hemit⟩
      intro e he
      rcases List.mem_append.mp he with hold | hnew
      · exact hcap e hold
      · rw [List.mem_singleton.mp hnew]; exact hvg pr.1
    · rw [if_neg h2]
      by_cases h3 : clsAt dists pr.1 = OUTSIDE ∧ clsAt dists pr.2 = ON
      · rw [if_pos h3]
        refine ⟨⟨hkl, hcache, ?_, hfaces⟩, hemit⟩
        intro e he
        rcases List.mem_append.mp he with hold | hnew
        · exact hcap e hold
        · rw [List.mem_singleton.mp hnew]; exact hvg pr.2
      · rw [if_neg h3]
        exact ⟨⟨hkl, hcache, hcap, hfaces⟩, hemit⟩

/-- One face step preserves the cut-state invariant. -/
theorem processFace_inv (verts : List Vec3) (dists : List ℚ)
    (vmap : List (ℕ × ℕ)) (kl : ℕ)
    (hvmap : ∀ pr ∈ vmap, pr.2 < kl) (hk : 1 ≤ kl)
    (s : CutState) (face : List ℕ) (hs : CutInv kl s) :
    CutInv kl (processFace verts dists vmap s face) := by
  unfold processFace
  have hinner :
      CutInv kl
        ((cyclePairs face).foldl (processPair verts dists vmap) (s, [])).1 ∧
      ∀ ix ∈ ((cyclePairs face).foldl (processPair verts dists vmap) (s, [])).2,
        ix < ((cyclePairs face).foldl (processPair verts dists vmap) (s, [])).1.nv.length := by
    apply foldl_invariant _
      (fun x : CutState × List ℕ =>
        CutInv kl x.1 ∧ ∀ ix ∈ x.2, ix < x.1.nv.length)
    · intro x pr _ hx
      exact processPair_inv verts dists vmap kl hvmap hk x pr hx
    · exact ⟨hs, by intro ix hix; simp at hix⟩
  by_cases hlen :
      3 ≤ ((cyclePairs face).foldl (processPair verts dists vmap) (s, [])).2.length
  · rw [if_pos hlen]
    obtain ⟨⟨h1, h2, h3, h4⟩, h5⟩ := hinner
    refine ⟨h1, h2, h3, ?_⟩
    intro f hf
    rcases List.mem_append.mp hf with hold | hnew
    · exact h4 f hold
    · rw [List.mem_singleton.mp hnew]
      exact ⟨hlen, h5⟩
  · rw [if_neg hlen]
    exact hinner.1

/-- The vertex map records only positions below the kept-vertex count. -/
theorem buildVertexMap_snd_lt (verts : List Vec3) (dists : List ℚ) :
    ∀ pr ∈ (buildVertexMap verts dists).2,
      pr.2 < (buildVertexMap verts dists).1.length := by
  unfold buildVertexMap
  apply foldl_invariant _
    (fun acc : List Vec3 × List (ℕ × ℕ) => ∀ pr ∈ acc.2, pr.2 < acc.1.length)
  · intro acc i _ hacc
    by_cases hc : clsAt dists i ≠ OUTSIDE
    · rw [if_pos hc]
      intro pr hpr
      rcases List.mem_append.mp hpr with hold | hnew
      · have := hacc pr hold
        simp only [List.length_append, List.length_singleton]
        omega
      · rw [List.mem_singleton.mp hnew]
        simp only [List.length_append, List.length_singleton]
        omega
    · rw [if_neg hc]; exact hacc
  · intro pr hpr; simp at hpr

/-- If some index in the scanned range is kept, the kept list is nonempty. -/
theorem buildVertexMap_pos_aux (verts : List Vec3) (dists : List ℚ) :
    ∀ (l : List ℕ) (acc : List Vec3 × List (ℕ × ℕ)),
      ((∃ i ∈ l, clsAt dists i ≠ OUTSIDE) ∨ 1 ≤ acc.1.length) →
      1 ≤ (l.foldl
        (fun acc i =>
          if clsAt dists i ≠ OUTSIDE then
            (acc.1 ++ [elemD ⟨0, 0, 0⟩ verts i], acc.2 ++ [(i, acc.1.length)])
          else acc)
        acc).1.length := by
  intro l
  induction l with
  | nil =>
      intro acc h
      rcases h with ⟨i, hi, _⟩ | hlen
      · simp at hi
      · exact hlen
  | cons i t ih =>
      intro acc h
      rw [List.foldl_cons]
      apply ih
      rcases h with ⟨i2, hi2, hc2⟩ | hlen
      · rcases List.mem_cons.mp hi2 with heq | ht
        · right
          subst heq
          rw [if_pos hc2]
          simp
        · exact Or.inl ⟨i2, ht, hc2⟩
      · right
        by_cases hc : clsAt dists i ≠ OUTSIDE
        · rw [if_pos hc]
          simp only [List.length_append, List.length_singleton]
          omega
        · rw [if_neg hc]
          exact hlen

theorem exists_inside_index {dists : List ℚ}
    (h : hasInside (dists.map classify) = true) :
    ∃ i, i < dists.length ∧ clsAt dists i = INSIDE := by
  unfold hasInside at h
  rw [List.any_eq_true] at h
  obtain ⟨c, hc, hdec⟩ := h
  rw [decide_eq_true_iff] at hdec
  subst hdec
  rw [List.mem_map] at hc
  obtain ⟨d, hd, hcd⟩ := hc
  rw [List.mem_iff_get] at hd
  obtain ⟨n, hn⟩ := hd
  refine ⟨n, n.isLt, ?_⟩
  unfold clsAt
  rw [elemD_eq_get 0 dists n n.isLt]
  rw [Fin.eta, hn, hcd]

/-- Cap-face entries all come from cap edges. -/
theorem buildCapFace_mem {capEdges : List (ℕ × ℕ × ℕ)} {vertices : List Vec3}
    {plane : Plane} {capFace : List ℕ}
    (h : buildCapFace capEdges vertices plane = some capFace) :
    ∀ ix ∈ capFace, ∃ e ∈ capEdges, ix = e.1 := by
  simp only [buildCapFace] at h
  by_cases h1 : capEdges.length < 3
  · rw [if_pos h1] at h; exact absurd h (by simp)
  · rw [if_neg h1] at h
    by_cases h2 : (dedupFirst (capEdges.map (fun e => e.1))).length < 3
    · rw [if_pos h2] at h; exact absurd h (by simp)
    · rw [if_neg h2] at h
      injection h with h3
      intro ix hix
      rw [← h3] at hix
      have hmem : ix ∈ dedupFirst (capEdges.map (fun e => e.1)) :=
        (List.perm_insertionSort _ _).mem_iff.mp hix
      have := dedupFirst_subset _ hmem
      rw [List.mem_map] at this
      obtain ⟨e, he, heq⟩ := this
      exact ⟨e, he, heq.symm⟩

/-- The rebuild stage always produces a polyhedron satisfying the
    documented invariant. -/
theorem cutRebuild_valid (p : ConvexPolyhedron) (pl : Plane) (dists : List ℚ)
    (hd : dists = p.vertices.map pl.signedDistance)
    (hIn : hasInside (dists.map classify) = true) :
    validPoly (cutRebuild p pl dists) := by
  have hvmap := buildVertexMap_snd_lt p.vertices dists
  have hk : 1 ≤ (buildVertexMap p.vertices dists).1.length := by
    obtain ⟨i, hi, hcls⟩ := exists_inside_index hIn
    have hi2 : i < p.vertices.length := by
      rw [hd, List.length_map] at hi; exact hi
    unfold buildVertexMap
    exact buildVertexMap_pos_aux p.vertices dists _ _
      (Or.inl ⟨i, List.mem_range.mpr hi2, by rw [hcls]; simp⟩)
  have hfold : CutInv (buildVertexMap p.vertices dists).1.length
      (p.faces.foldl
        (processFace p.vertices dists (buildVertexMap p.vertices dists).2)
        { nv := (buildVertexMap p.vertices dists).1, cache := [], capEdges := [],
          newFaces := [] }) := by
    apply foldl_invariant _ (CutInv (buildVertexMap p.vertices dists).1.length)
    · intro s face _ hs
      exact processFace_inv _ _ _ _ hvmap hk s face hs
    · exact ⟨le_refl _, by simp, by simp, by simp⟩
  obtain ⟨hkl, hcache, hcap, hfaces⟩ := hfold
  simp only [cutRebuild]
  unfold validPoly
  intro f hf
  dsimp only at hf ⊢
  split at hf
  · split at hf
    · rename_i capFace hbc
      split at hf
      · rcases List.mem_append.mp hf with hold | hnew
        · exact hfaces f hold
        · rw [List.mem_singleton.mp hnew]
          rename_i hcl
          refine ⟨hcl, ?_⟩
          intro ix hix
          obtain ⟨e, he, heq⟩ := buildCapFace_mem hbc ix hix
          rw [heq]
          exact hcap e he
      · exact hfaces f hf
    · exact hfaces f hf
  · exact hfaces f hf

/-- C7: the polyhedron invariant holds for every freshly created box and is
    preserved by every plane cut, including the emptying cut. -/
theorem claim_C7 :
    (∀ a b c d e f : ℚ, validPoly (ConvexPolyhedron.createBox a b c d e f)) ∧
    ∀ (p : ConvexPolyhedron) (pl : Plane),
      validPoly p → validPoly (p.cutWithPlane pl) := by
  constructor
  · intro a b c d e f
    intro face hface
    simp only [ConvexPolyhedron.createBox, List.mem_cons, List.not_mem_nil,
      or_false] at hface
    have hlen : (ConvexPolyhedron.createBox a b c d e f).vertices.length = 8 := rfl
    rcases hface with rfl | rfl | rfl | rfl | rfl | rfl <;>
      exact ⟨by decide, by rw [hlen]; decide⟩
  · intro p pl hp
    unfold ConvexPolyhedron.cutWithPlane
    by_cases h1 :
        hasOutside ((p.vertices.map pl.signedDistance).map classify) = false
    · rw [if_pos h1]; exact hp
    · rw [if_neg h1]
      by_cases h2 :
          hasInside ((p.vertices.map pl.signedDistance).map classify) = false
      · rw [if_pos h2]
        intro f hf
        simp at hf
      · rw [if_neg h2]
        rcases Bool.eq_false_or_eq_true
            (hasInside ((p.vertices.map pl.signedDistance).map classify)) with
          hb | hb
        · exact cutRebuild_valid p pl _ rfl hb
        · exact absurd hb h2

/-- Witness for C7: the invariant after cutting the unit box with `x = 0`. -/
theorem claim_C7_witness : validPoly (unitBox.cutWithPlane planeX0) :=
  claim_C7.2 unitBox planeX0 (by with_unfolding_all decide)

/-! Lemmas for the mesh extraction claim (C8). -/

theorem fanTriples_length (face : List ℕ) :
    (fanTriples face).length = face.length - 2 := by
  unfold fanTriples
  rw [List.length_map, List.length_range']

theorem triFold_length :
    ∀ (l : List (ℕ × ℕ × ℕ)) (acc : List ℕ),
      (l.foldl (fun a tr => a ++ [tr.1, tr.2.1, tr.2.2]) acc).length =
        acc.length + 3 * l.length := by
  intro l
  induction l with
  | nil => intro acc; simp
  | cons tr t ih =>
      intro acc
      rw [List.foldl_cons, ih]
      simp only [List.length_append, List.length_cons, List.length_nil]
      omega

theorem indicesFold_length :
    ∀ (fs : List (List ℕ)) (acc : List ℕ),
      (fs.foldl
        (fun acc face =>
          if face.length < 3 then acc
          else (fanTriples face).foldl (fun a tr => a ++ [tr.1, tr.2.1, tr.2.2]) acc)
        acc).length =
      acc.length +
        (fs.map (fun f => if f.length < 3 then 0 else 3 * (f.length - 2))).sum := by
  intro fs
  induction fs with
  | nil => intro acc; simp
  | cons f t ih =>
      intro acc
      rw [List.foldl_cons, ih, List.map_cons, List.sum_cons]
      by_cases hf : f.length < 3
      · rw [if_pos hf, if_pos hf]
        omega
      · rw [if_neg hf, if_neg hf, triFold_length, fanTriples_length]
        omega

theorem sum_ge_two_mul {ls : List ℕ} (h : ∀ x ∈ ls, 3 ≤ x) :
    2 * ls.length ≤ ls.sum := by
  induction ls with
  | nil => simp
  | cons a t ih =>
      have ha := h a (List.mem_cons_self _ _)
      have ht := ih (fun x hx => h x (List.mem_cons_of_mem _ hx))
      rw [List.sum_cons, List.length_cons]
      omega

theorem fan_sum_eq {fs : List (List ℕ)} (h : ∀ f ∈ fs, 3 ≤ f.length) :
    (fs.map (fun f => if f.length < 3 then 0 else 3 * (f.length - 2))).sum =
      3 * ((fs.map List.length).sum - 2 * fs.length) := by
  induction fs with
  | nil => simp
  | cons f t ih =>
      have hf : 3 ≤ f.length := h f (List.mem_cons_self _ _)
      have ht : ∀ g ∈ t, 3 ≤ g.length := fun g hg => h g (List.mem_cons_of_mem _ hg)
      have hsum : 2 * t.length ≤ (t.map List.length).sum := by
        have hx : ∀ x ∈ t.map List.length, 3 ≤ x := by
          intro x hx
          rw [List.mem_map] at hx
          obtain ⟨g, hg, rfl⟩ := hx
          exact ht g hg
        have := sum_ge_two_mul hx
        rwa [List.length_map] at this
      rw [List.map_cons, List.sum_cons, ih ht, List.map_cons, List.sum_cons,
        List.length_cons, if_neg (by omega)]
      omega

theorem getEdgeKey_fst_le (a b : ℕ) : (getEdgeKey a b).1 ≤ (getEdgeKey a b).2 := by
  unfold getEdgeKey
  split_ifs with h
  · exact le_of_lt h
  · exact le_of_not_lt h

/-- The deduplicated edge list has no duplicates and only order-normalized
    pairs. -/
theorem getEdges_inv (p : ConvexPolyhedron) :
    p.getEdges.Nodup ∧ ∀ e ∈ p.getEdges, e.1 ≤ e.2 := by
  unfold ConvexPolyhedron.getEdges
  apply foldl_invariant _
    (fun acc : List (ℕ × ℕ) => acc.Nodup ∧ ∀ e ∈ acc, e.1 ≤ e.2)
  · intro acc face _ hacc
    apply foldl_invariant _
      (fun acc : List (ℕ × ℕ) => acc.Nodup ∧ ∀ e ∈ acc, e.1 ≤ e.2)
      (cyclePairs face) acc _ hacc
    intro acc2 pr _ h2
    by_cases hmem : getEdgeKey pr.1 pr.2 ∈ acc2
    · rw [if_pos hmem]; exact h2
    · rw [if_neg hmem]
      constructor
      · rw [List.nodup_append]
        refine ⟨h2.1, List.nodup_singleton _, ?_⟩
        intro a ha hb
        rw [List.mem_singleton] at hb
        subst hb
        exact hmem ha
      · intro e he
        rcases List.mem_append.mp he with hold | hnew
        · exact h2.2 e hold
        · rw [List.mem_singleton.mp hnew]
          exact getEdgeKey_fst_le pr.1 pr.2
  · exact ⟨List.nodup_nil, by simp⟩

/-- C8: for a polyhedron whose faces all have at least 3 vertices, the
    triangle index buffer has length `3 * (E_total - 2F)` and the edge list
    contains no two entries equal as unordered pairs. -/
theorem claim_C8 (p : ConvexPolyhedron) (h : ∀ f ∈ p.faces, 3 ≤ f.length) :
    (cellToMeshData p).indices.length =
      3 * ((p.faces.map List.length).sum - 2 * p.faces.length) ∧
    (cellToMeshData p).edges.Pairwise
      (fun e1 e2 => ¬(e1 = e2 ∨ e1.1 = e2.2 ∧ e1.2 = e2.1)) := by
  constructor
  · have hi : (cellToMeshData p).indices =
        p.faces.foldl
          (fun acc face =>
            if face.length < 3 then acc
            else (fanTriples face).foldl
              (fun a tr => a ++ [tr.1, tr.2.1, tr.2.2]) acc)
          [] := rfl
    rw [hi, indicesFold_length, fan_sum_eq h]
    simp
  · have he : (cellToMeshData p).edges = p.getEdges := rfl
    rw [he]
    obtain ⟨hnd, hcanon⟩ := getEdges_inv p
    refine List.Pairwise.imp_of_mem ?_ hnd
    intro e1 e2 h1 h2 hne hcon
    rcases hcon with heq | ⟨ha, hb⟩
    · exact hne heq
    · have c1 := hcanon e1 h1
      have c2 := hcanon e2 h2
      apply hne
      have hfst : e1.1 = e2.1 := by omega
      have hsnd : e1.2 = e2.2 := by omega
      exact Prod.ext hfst hsnd

/-- Witness for C8 at the unit box. -/
theorem claim_C8_witness :
    (cellToMeshData unitBox).indices.length =
      3 * ((unitBox.faces.map List.length).sum - 2 * unitBox.faces.length) ∧
    (cellToMeshData unitBox).edges.Pairwise
      (fun e1 e2 => ¬(e1 = e2 ∨ e1.1 = e2.2 ∧ e1.2 = e2.1)) :=
  claim_C8 unitBox (by decide)

/-! Lemmas for the intersection-cache claim (C6). -/

theorem getEdgeKey_symm (i j : ℕ) : getEdgeKey j i = getEdgeKey i j := by
  unfold getEdgeKey
  rcases lt_trichotomy i j with h | h | h
  · rw [if_neg (by omega), if_pos h]
  · subst h
    rfl
  · rw [if_pos h, if_neg (by omega)]

theorem getOrCreate_cached (verts : List Vec3) (dists : List ℚ)
    (s : List Vec3 × List ((ℕ × ℕ) × ℕ)) (i j n : ℕ)
    (h : alookup (getEdgeKey i j) s.2 = some n) :
    getOrCreateIntersection verts dists s i j = (s, n) := by
  simp only [getOrCreateIntersection, h]

theorem getOrCreate_fresh (verts : List Vec3) (dists : List ℚ)
    (s : List Vec3 × List ((ℕ × ℕ) × ℕ)) (i j : ℕ)
    (h : alookup (getEdgeKey i j) s.2 = none) :
    getOrCreateIntersection verts dists s i j =
      ((s.1 ++ [lerpPoint verts dists i j],
        s.2 ++ [(getEdgeKey i j, s.1.length)]), s.1.length) := by
  simp only [getOrCreateIntersection, h]

theorem getOrCreate_idem (verts : List Vec3) (dists : List ℚ)
    (s : List Vec3 × List ((ℕ × ℕ) × ℕ)) (i j : ℕ) :
    getOrCreateIntersection verts dists
        (getOrCreateIntersection verts dists s i j).1 i j =
      getOrCreateIntersection verts dists s i j ∧
    getOrCreateIntersection verts dists
        (getOrCreateIntersection verts dists s i j).1 j i =
      getOrCreateIntersection verts dists s i j := by
  cases hlook : alookup (getEdgeKey i j) s.2 with
  | some n =>
      rw [getOrCreate_cached verts dists s i j n hlook]
      constructor
      · exact getOrCreate_cached verts dists s i j n hlook
      · rw [getOrCreate_cached verts dists s j i n (by rwa [getEdgeKey_symm])]
  | none =>
      rw [getOrCreate_fresh verts dists s i j hlook]
      have hcached :
          alookup (getEdgeKey i j) (s.2 ++ [(getEdgeKey i j, s.1.length)]) =
            some s.1.length :=
        alookup_append_right _ _ _ hlook
      constructor
      · exact getOrCreate_cached verts dists _ i j s.1.length hcached
      · exact getOrCreate_cached verts dists _ j i s.1.length
          (by rwa [getEdgeKey_symm])

theorem processPair_straddle (verts : List Vec3) (dists : List ℚ)
    (vmap : List (ℕ × ℕ)) (st : CutState × List ℕ) (pr : ℕ × ℕ)
    (hst :
      (clsAt dists pr.1 = INSIDE ∧ clsAt dists pr.2 = OUTSIDE) ∨
      (clsAt dists pr.1 = OUTSIDE ∧ clsAt dists pr.2 = INSIDE)) :
    processPair verts dists vmap st pr =
      ({ st.1 with
          nv := (getOrCreateIntersection verts dists (st.1.nv, st.1.cache)
            pr.1 pr.2).1.1
          cache := (getOrCreateIntersection verts dists (st.1.nv, st.1.cache)
            pr.1 pr.2).1.2
          capEdges := st.1.capEdges ++
            [if clsAt dists pr.1 = INSIDE then
                ((getOrCreateIntersection verts dists (st.1.nv, st.1.cache)
                  pr.1 pr.2).2, pr.1, pr.2)
              else
                ((getOrCreateIntersection verts dists (st.1.nv, st.1.cache)
                  pr.1 pr.2).2, pr.2, pr.1)] },
        (if clsAt dists pr.1 ≠ OUTSIDE then st.2 ++ [vmapGet vmap pr.1] else st.2) ++
          [(getOrCreateIntersection verts dists (st.1.nv, st.1.cache) pr.1 pr.2).2]) := by
  simp only [processPair, if_pos hst]

theorem processPair_boundary (verts : List Vec3) (dists : List ℚ)
    (vmap : List (ℕ × ℕ)) (st : CutState × List ℕ) (pr : ℕ × ℕ)
    (hcur : clsAt dists pr.1 = ON) (hnext : clsAt dists pr.2 = OUTSIDE) :
    processPair verts dists vmap st pr =
      ({ st.1 with capEdges := st.1.capEdges ++ [(vmapGet vmap pr.1, pr.1, pr.2)] },
        st.2 ++ [vmapGet vmap pr.1]) := by
  have hst :
      ¬((clsAt dists pr.1 = INSIDE ∧ clsAt dists pr.2 = OUTSIDE) ∨
        (clsAt dists pr.1 = OUTSIDE ∧ clsAt dists pr.2 = INSIDE)) := by
    simp [hcur, hnext]
  simp only [processPair, if_neg hst, if_pos (And.intro hcur hnext)]
  rw [if_pos (by simp [hcur])]

/-- C6 (amended): the edge/plane intersection cache is keyed by the
    undirected pair of original vertex indices; a cached edge returns its
    vertex unchanged, a fresh straddling edge creates exactly one new vertex
    by linear interpolation with `t = d1 / (d1 - d2)`, and any later request
    for the same edge, in either orientation, reuses that vertex.  Straddling
    (INSIDE/OUTSIDE) pairs go through this cache; a boundary (ON, OUTSIDE)
    pair does not interpolate and creates no vertex: it records the already
    kept ON vertex for the cap face. -/
theorem claim_C6 :
    (∀ i j : ℕ, getEdgeKey j i = getEdgeKey i j) ∧
    (∀ (verts : List Vec3) (dists : List ℚ)
        (s : List Vec3 × List ((ℕ × ℕ) × ℕ)) (i j n : ℕ),
      alookup (getEdgeKey i j) s.2 = some n →
      getOrCreateIntersection verts dists s i j = (s, n)) ∧
    (∀ (verts : List Vec3) (dists : List ℚ)
        (s : List Vec3 × List ((ℕ × ℕ) × ℕ)) (i j : ℕ),
      alookup (getEdgeKey i j) s.2 = none →
      getOrCreateIntersection verts dists s i j =
        ((s.1 ++ [lerpPoint verts dists i j],
          s.2 ++ [(getEdgeKey i j, s.1.length)]), s.1.length)) ∧
    (∀ (verts : List Vec3) (dists : List ℚ)
        (s : List Vec3 × List ((ℕ × ℕ) × ℕ)) (i j : ℕ),
      getOrCreateIntersection verts dists
          (getOrCreateIntersection verts dists s i j).1 i j =
        getOrCreateIntersection verts dists s i j ∧
      getOrCreateIntersection verts dists
          (getOrCreateIntersection verts dists s i j).1 j i =
        getOrCreateIntersection verts dists s i j) ∧
    (∀ (verts : List Vec3) (dists : List ℚ) (vmap : List (ℕ × ℕ))
        (st : CutState × List ℕ) (pr : ℕ × ℕ),
      (clsAt dists pr.1 = INSIDE ∧ clsAt dists pr.2 = OUTSIDE) ∨
      (clsAt dists pr.1 = OUTSIDE ∧ clsAt dists pr.2 = INSIDE) →
      processPair verts dists vmap st pr =
        ({ st.1 with
            nv := (getOrCreateIntersection verts dists (st.1.nv, st.1.cache)
              pr.1 pr.2).1.1
            cache := (getOrCreateIntersection verts dists (st.1.nv, st.1.cache)
              pr.1 pr.2).1.2
            capEdges := st.1.capEdges ++
              [if clsAt dists pr.1 = INSIDE then
                  ((getOrCreateIntersection verts dists (st.1.nv, st.1.cache)
                    pr.1 pr.2).2, pr.1, pr.2)
                else
                  ((getOrCreateIntersection verts dists (st.1.nv, st.1.cache)
                    pr.1 pr.2).2, pr.2, pr.1)] },
          (if clsAt dists pr.1 ≠ OUTSIDE then st.2 ++ [vmapGet vmap pr.1]
            else st.2) ++
            [(getOrCreateIntersection verts dists (st.1.nv, st.1.cache)
              pr.1 pr.2).2])) ∧
    ∀ (verts : List Vec3) (dists : List ℚ) (vmap : List (ℕ × ℕ))
        (st : CutState × List ℕ) (pr : ℕ × ℕ),
      clsAt dists pr.1 = ON → clsAt dists pr.2 = OUTSIDE →
      processPair verts dists vmap st pr =
        ({ st.1 with
            capEdges := st.1.capEdges ++ [(vmapGet vmap pr.1, pr.1, pr.2)] },
          st.2 ++ [vmapGet vmap pr.1]) :=
  ⟨getEdgeKey_symm, getOrCreate_cached, getOrCreate_fresh, getOrCreate_idem,
    processPair_straddle, processPair_boundary⟩

/-- Counterexample for C6 as stated: for the boundary pair `(ON, OUTSIDE)`
    below, `processPair` computes no interpolated intersection point at all —
    the cache stays empty and no new vertex is created — contradicting the
    claim that such pairs use a cached interpolated intersection point. -/
theorem claim_C6_counterexample :
    clsAt [0, 1] 0 = ON ∧ clsAt [0, 1] 1 = OUTSIDE ∧
    (processPair [⟨0, 0, 0⟩, ⟨1, 0, 0⟩] [0, 1] [(0, 0)]
      (⟨[⟨0, 0, 0⟩], [], [], []⟩, []) (0, 1)).1.cache = [] ∧
    (processPair [⟨0, 0, 0⟩, ⟨1, 0, 0⟩] [0, 1] [(0, 0)]
      (⟨[⟨0, 0, 0⟩], [], [], []⟩, []) (0, 1)).1.nv = [⟨0, 0, 0⟩] := by
  with_unfolding_all decide

/-- Witness for C6: a fresh straddling edge creates exactly the interpolated
    vertex and caches it under the undirected key. -/
theorem claim_C6_witness :
    getOrCreateIntersection [⟨0, 0, 0⟩, ⟨2, 0, 0⟩] [-1, 1]
        (([], []) : List Vec3 × List ((ℕ × ℕ) × ℕ)) 0 1 =
      ((([] : List Vec3) ++ [lerpPoint [⟨0, 0, 0⟩, ⟨2, 0, 0⟩] [-1, 1] 0 1],
        ([] : List ((ℕ × ℕ) × ℕ)) ++ [(getEdgeKey 0 1, ([] : List Vec3).length)]),
        ([] : List Vec3).length) :=
  claim_C6.2.2.1 [⟨0, 0, 0⟩, ⟨2, 0, 0⟩] [-1, 1] ([], []) 0 1 rfl
